import Mathlib

/-!
Shallow embedding of `pkg/mesh/mesh.go` (package `mesh`).

Modelling conventions:
* Go strings are `List Char`.
* Go `time.Duration` is `Int` (a count of nanoseconds, as in Go).
* A Go `map[string]string` is an association list `List (List Char × List Char)`;
  where a claim needs the map character of the input, pairwise-distinct keys are
  taken as a hypothesis.
* The outcome of the one `cmd.Run()` call inside `Exec` (spawn failure, exit
  code, captured buffers, whether the deadline context expired) is supplied as
  an explicit `RunResult` value, so `Exec` is a pure state transformer.
-/

/-- Models Go `unicode.IsSpace` (the Unicode White_Space property, which is
exactly the character set listed here). -/
def isSpaceChar (c : Char) : Bool :=
  c = ' ' || c = '\t' || c = '\n' || c.val = 11 || c.val = 12 || c = '\r' ||
  c.val = 0x85 || c.val = 0xA0 || c.val = 0x1680 ||
  (0x2000 ≤ c.val && c.val ≤ 0x200A) ||
  c.val = 0x2028 || c.val = 0x2029 || c.val = 0x202F || c.val = 0x205F || c.val = 0x3000

/-- Models Go `strings.TrimSpace`: remove leading and trailing white space. -/
def trimSpace (s : List Char) : List Char :=
  ((s.dropWhile isSpaceChar).reverse.dropWhile isSpaceChar).reverse

/-- Models `strings.SplitN(kv, "=", 2)` together with the `len(parts) != 2`
check of `SetEnv`: `none` when `kv` contains no `'='` (one part), otherwise
`some (key, value)` split at the first `'='`. -/
def splitKV : List Char → Option (List Char × List Char)
  | [] => none
  | c :: cs =>
    if c = '=' then some ([], cs)
    else
      match splitKV cs with
      | none => none
      | some p => some (c :: p.1, p.2)

/-- Models the Go map membership test `_, ok := envVars[k]`. -/
def hasKey (envVars : List (List Char × List Char)) (k : List Char) : Bool :=
  envVars.any (fun p => decide (p.1 = k))

/-- The environment rebuild performed by `(t *Ts) SetEnv`: keep the well-formed
existing entries whose key is not overlaid, then append one `KEY=VALUE` string
per overlay pair (`fmt.Sprintf("%s=%s", k, v)`). -/
def overlayEnv (env : List (List Char)) (envVars : List (List Char × List Char)) :
    List (List Char) :=
  env.filter (fun kv =>
    match splitKV kv with
    | none => false
    | some p => ! hasKey envVars p.1) ++
  envVars.map (fun p => p.1 ++ '=' :: p.2)

/-- Models the `Config` struct. -/
structure Config where
  Cmd : List Char
  Shell : List Char
  Timeout : Int
  Env : List (List Char)
  deriving DecidableEq

/-- Models `NewConfig`; `osEnviron` stands for the ambient `os.Environ()`
snapshot read at call time. -/
def NewConfig (osEnviron : List (List Char)) : Config :=
  { Cmd := [], Shell := "bash".data, Timeout := 60 * 1000000000, Env := osEnviron }

/-- Models the `Ts` struct: one configuration plus the mutable result fields
(`stdout`, `stderr`, `exitCode`, all zero-valued on construction). -/
structure Ts where
  Cfg : Config
  stdout : List Char
  stderr : List Char
  exitCode : Int
  deriving DecidableEq

/-- Models `New(cmdStr, config...)`. -/
def New (cmdStr : List Char) (config : Option Config) (osEnviron : List (List Char)) : Ts :=
  let cfg :=
    match config with
    | some c => c
    | none => NewConfig osEnviron
  let cfg := if cfg.Cmd = [] then { cfg with Cmd := cmdStr } else cfg
  { Cfg := cfg, stdout := [], stderr := [], exitCode := 0 }

/-- Models `(t *Ts) SetEnv(envVars)`: replaces the environment list in place
(the returned handle is the updated one). -/
def Ts.SetEnv (t : Ts) (envVars : List (List Char × List Char)) : Ts :=
  { t with Cfg := { t.Cfg with Env := overlayEnv t.Cfg.Env envVars } }

/-- Models `(t *Ts) GetEnv()` (the copy is identical to the stored list). -/
def Ts.GetEnv (t : Ts) : List (List Char) := t.Cfg.Env

/-- Models `(t *Ts) Stdout()`. -/
def Ts.Stdout (t : Ts) : List Char := t.stdout

/-- Models `(t *Ts) Stderr()`. -/
def Ts.Stderr (t : Ts) : List Char := t.stderr

/-- Models `(t *Ts) ExitCode()`. -/
def Ts.ExitCode (t : Ts) : Int := t.exitCode

/-- Models `strings.Split(s, sep)` for a one-character separator. -/
def splitSep (sep : Char) : List Char → List (List Char)
  | [] => [[]]
  | c :: cs =>
    if c = sep then [] :: splitSep sep cs
    else
      match splitSep sep cs with
      | [] => [[c]]
      | l :: ls => (c :: l) :: ls

/-- Models `(t *Ts) Lines()`: `[]` on empty stdout, otherwise the stdout split
on `"\n"`. -/
def Ts.Lines (t : Ts) : List (List Char) :=
  if Ts.Stdout t = [] then [] else splitSep '\n' (Ts.Stdout t)

/-- The accumulator loop of `strings.Fields`; `acc` holds the current token
reversed. -/
def fieldsAux : List Char → List Char → List (List Char)
  | acc, [] => if acc = [] then [] else [acc.reverse]
  | acc, c :: cs =>
    if isSpaceChar c then
      if acc = [] then fieldsAux [] cs else acc.reverse :: fieldsAux [] cs
    else fieldsAux (c :: acc) cs

/-- Models `strings.Fields`: the maximal white-space-free tokens of `s`. -/
def goFields (s : List Char) : List (List Char) := fieldsAux [] s

/-- One iteration of the loop inside `(t *Ts) Fields`: pad short token lists
with empty strings, truncate long ones with `fields[:expectedLen]`.  The
`none` result models the slice-bounds fault of `fields[:expectedLen]` when
`expectedLen` is negative. -/
def fieldsRow (expectedLen : Int) (line : List Char) : Option (List (List Char)) :=
  let fields := goFields line
  if (fields.length : Int) < expectedLen then
    some (fields ++ List.replicate (expectedLen - (fields.length : Int)).toNat [])
  else if expectedLen < (fields.length : Int) then
    if expectedLen < 0 then none else some (fields.take expectedLen.toNat)
  else some fields

/-- The `for _, line := range lines` loop of `(t *Ts) Fields`; a fault in any
iteration aborts the whole call. -/
def fieldsLoop (expectedLen : Int) : List (List Char) → Option (List (List (List Char)))
  | [] => some []
  | line :: rest =>
    match fieldsRow expectedLen line with
    | none => none
    | some row =>
      match fieldsLoop expectedLen rest with
      | none => none
      | some rows => some (row :: rows)

/-- Models `(t *Ts) Fields(expectedLen)`. -/
def Ts.Fields (t : Ts) (expectedLen : Int) : Option (List (List (List Char))) :=
  fieldsLoop expectedLen (Ts.Lines t)

/-- A Go `map[string][]string` as an association list; assignment replaces the
binding of the key, and only lookup is observable. -/
def mapUpsert (m : List (List Char × List (List Char))) (k : List Char)
    (v : List (List Char)) : List (List Char × List (List Char)) :=
  (k, v) :: m.filter (fun p => decide (p.1 ≠ k))

/-- Lookup in the association-list model of a Go map. -/
def mapLookup (m : List (List Char × List (List Char))) (k : List Char) :
    Option (List (List Char)) :=
  (m.find? (fun p => decide (p.1 = k))).map Prod.snd

/-- One iteration of the loop inside `(t *Ts) ToMap`: rows of length zero are
skipped, otherwise `data[field[0]] = field[1:]`. -/
def toMapStep (data : List (List Char × List (List Char))) (field : List (List Char)) :
    List (List Char × List (List Char)) :=
  match field with
  | [] => data
  | k :: rest => mapUpsert data k rest

/-- The `for _, field := range fields` loop of `(t *Ts) ToMap`. -/
def toMapLoop (rows : List (List (List Char))) : List (List Char × List (List Char)) :=
  rows.foldl toMapStep []

/-- Models `(t *Ts) ToMap(expectedLen)`; `none` propagates the `Fields` fault. -/
def Ts.ToMap (t : Ts) (expectedLen : Int) : Option (List (List Char × List (List Char))) :=
  match Ts.Fields t expectedLen with
  | none => none
  | some rows => some (toMapLoop rows)

/-- Drops the trailing `'0'` characters (the zero omission of Go time's
`fmtFrac`). -/
def stripZerosRight (l : List Char) : List Char :=
  (l.reverse.dropWhile (fun c => decide (c = '0'))).reverse

/-- The fraction written by Go time's `fmtFrac`: a `'.'` and the `prec`
low-order decimal digits of `u`, trailing zeros omitted, or nothing when they
are all zero. -/
def fracPart (u : Nat) (prec : Nat) : List Char :=
  if u % 10 ^ prec = 0 then []
  else
    let ds := Nat.toDigits 10 (u % 10 ^ prec)
    '.' :: stripZerosRight (List.replicate (prec - ds.length) '0' ++ ds)

/-- Models Go `time.Duration.String()` (`d` in nanoseconds). -/
def durationString (d : Int) : List Char :=
  let u := d.natAbs
  let s :=
    if u < 1000000000 then
      if u = 0 then "0s".data
      else if u < 1000 then Nat.toDigits 10 u ++ "ns".data
      else if u < 1000000 then Nat.toDigits 10 (u / 1000) ++ fracPart u 3 ++ "µs".data
      else Nat.toDigits 10 (u / 1000000) ++ fracPart u 6 ++ "ms".data
    else
      let secPart := Nat.toDigits 10 (u / 1000000000 % 60) ++ fracPart u 9 ++ "s".data
      let uM := u / 1000000000 / 60
      if uM = 0 then secPart
      else
        let minPart := Nat.toDigits 10 (uM % 60) ++ "m".data ++ secPart
        if uM / 60 = 0 then minPart
        else Nat.toDigits 10 (uM / 60) ++ "h".data ++ minPart
  if d < 0 then '-' :: s else s

/-- The `fmt.Sprintf("Error: Command execution timed out after %s.", t.Cfg.Timeout)`
message synthesized by `Exec` on deadline expiry. -/
def timeoutMsg (timeout : Int) : List Char :=
  "Error: Command execution timed out after ".data ++ durationString timeout ++ ".".data

/-- The observable outcome of the one `cmd.Run()` call made by `Exec`:
`runErr` is `err.Error()` when `cmd.Run` returned a non-nil error, `processExit`
is `cmd.ProcessState.ExitCode()` when `cmd.ProcessState` is non-nil, the two
buffers are the captured output streams, and `deadlineExceeded` records
whether `ctx.Err() == context.DeadlineExceeded` held afterwards. -/
structure RunResult where
  runErr : Option (List Char)
  processExit : Option Int
  stdoutBuf : List Char
  stderrBuf : List Char
  deadlineExceeded : Bool
  deriving DecidableEq

/-- The body of `Exec` after the re-run guard, statement by statement:
record `err.Error()` into stderr when `cmd.Run` failed; record the exit code
(or `-1` when there is no process state); overwrite stdout and stderr with the
trimmed captured buffers; on deadline expiry overwrite stderr with the
synthesized timeout message and force the exit code to `-1`. -/
def execBody (t : Ts) (w : RunResult) : Ts :=
  let t1 :=
    match w.runErr with
    | some msg => { t with stderr := msg }
    | none => t
  let t2 :=
    match w.processExit with
    | some code => { t1 with exitCode := code }
    | none => { t1 with exitCode := -1 }
  let t3 := { t2 with stdout := trimSpace w.stdoutBuf, stderr := trimSpace w.stderrBuf }
  if w.deadlineExceeded then
    { t3 with stderr := timeoutMsg t.Cfg.Timeout, exitCode := -1 }
  else t3

/-- Models `(t *Ts) Exec()` with the run outcome supplied by `w`: the guard
`t.exitCode != 0 && t.exitCode != -1` returns the handle unchanged, otherwise
the body runs. -/
def Ts.Exec (t : Ts) (w : RunResult) : Ts :=
  if t.exitCode ≠ 0 ∧ t.exitCode ≠ -1 then t else execBody t w

/-- The KEY portion of an environment entry as worded by the spec: the
characters before the first `'='`. -/
def entryKey (e : List Char) : List Char := e.takeWhile (fun c => decide (c ≠ '='))

/-- The environment rebuild exactly as the spec words it (for claim C4): keep
the prior entries that contain `'='` and whose key is not a key of the overlay
map, then append one `KEY=VALUE` entry per overlay pair. -/
def specOverlayEnv (env : List (List Char)) (ov : List (List Char × List Char)) :
    List (List Char) :=
  env.filter (fun e => decide ('=' ∈ e) && ! decide (entryKey e ∈ ov.map Prod.fst)) ++
  ov.map (fun p => p.1 ++ '=' :: p.2)

/-- The spec's description of one `Fields` row for a nonnegative expected
length: the tokens truncated to the first `n`, or padded at the end with empty
strings to length `n`. -/
def padTrunc (n : Nat) (fields : List (List Char)) : List (List Char) :=
  if n ≤ fields.length then fields.take n else fields ++ List.replicate (n - fields.length) []

/-- The last row whose first entry is `k` (the spec's "later lines overwrite
earlier ones"). -/
def findLastRow (k : List Char) : List (List (List Char)) → Option (List (List Char))
  | [] => none
  | r :: rest =>
    match findLastRow k rest with
    | some x => some x
    | none => if r.head? = some k then some r else none

/-- Joins segments with a separator character (left inverse of `splitSep`). -/
def joinSep (sep : Char) : List (List Char) → List Char
  | [] => []
  | l :: ls =>
    match ls with
    | [] => l
    | _ :: _ => l ++ sep :: joinSep sep ls

/-- A configuration shared by the concrete sample handles below. -/
def cfgEx : Config :=
  { Cmd := "true".data, Shell := "bash".data, Timeout := 60 * 1000000000,
    Env := ["A=1".data, "B=2".data] }

/-- A freshly constructed handle (exit code still the unset sentinel 0). -/
def tsFresh : Ts := { Cfg := cfgEx, stdout := [], stderr := [], exitCode := 0 }

/-- A handle whose recorded exit code is a genuine non-zero terminal code. -/
def tsFailed : Ts :=
  { Cfg := cfgEx, stdout := "old out".data, stderr := "old err".data, exitCode := 7 }

/-- A handle holding a given stdout snapshot. -/
def tsWith (s : String) : Ts := { Cfg := cfgEx, stdout := s.data, stderr := [], exitCode := 0 }

/-- Sample stdout for the `ToMap` example of the spec. -/
def tsABA : Ts := tsWith "a 1\nb 2\na 9"

/-- Sample stdout with a five-token line and a one-token line (the `Fields(3)`
example of the spec). -/
def tsFiveOne : Ts := tsWith "v w x y z\nu"

/-- A handle whose prior environment already contains two entries with the
same key. -/
def tsDup : Ts :=
  { Cfg := { cfgEx with Env := ["A=1".data, "A=2".data] }, stdout := [], stderr := [],
    exitCode := 0 }

/-- A handle with an empty environment list. -/
def tsEmptyEnv : Ts :=
  { Cfg := { cfgEx with Env := [] }, stdout := [], stderr := [], exitCode := 0 }

/-- The overlay map of the spec's key-collision example. -/
def ovA9 : List (List Char × List Char) := [("A".data, "9".data)]

/-- The overlay map of the spec's idempotence example. -/
def ovA1 : List (List Char × List Char) := [("A".data, "1".data)]

/-- An overlay map whose key collides with nothing. -/
def ovC3 : List (List Char × List Char) := [("C".data, "3".data)]

/-- An overlay map whose key itself contains `'='`. -/
def ovEqKey : List (List Char × List Char) := [("A=B".data, "c".data)]

/-- A successful run outcome. -/
def wOk : RunResult :=
  { runErr := none, processExit := some 0, stdoutBuf := " hi \n".data, stderrBuf := [],
    deadlineExceeded := false }

/-- A failing run whose captured stderr stream is empty. -/
def wErrEmpty : RunResult :=
  { runErr := some "exit status 1".data, processExit := some 1, stdoutBuf := [],
    stderrBuf := [], deadlineExceeded := false }

/-- A run aborted by the deadline, with process-level error data recorded too. -/
def wTimedOut : RunResult :=
  { runErr := some "signal: killed".data, processExit := some (-1),
    stdoutBuf := "partial".data, stderrBuf := "boom".data, deadlineExceeded := true }

/-- A run whose stdout contains an interior blank line and a token with a
trailing space. -/
def wBlank : RunResult :=
  { runErr := none, processExit := some 0, stdoutBuf := "a \n\nb".data, stderrBuf := [],
    deadlineExceeded := false }

/-! ### Helper lemmas about `splitKV` and `entryKey` -/

theorem splitKV_eq_none (e : List Char) : splitKV e = none ↔ '=' ∉ e := by
  induction e with
  | nil => simp [splitKV]
  | cons c cs ih =>
    by_cases hc : c = '='
    · subst hc; simp [splitKV]
    · cases h : splitKV cs with
      | none =>
        simp only [splitKV, if_neg hc, h, List.mem_cons]
        simp [Ne.symm hc, ih.mp h]
      | some p =>
        simp only [splitKV, if_neg hc, h, List.mem_cons]
        have hmem : '=' ∈ cs := by
          by_contra hmem
          rw [ih.mpr hmem] at h
          cases h
        simp [hmem]

theorem splitKV_key (e : List Char) (p : List Char × List Char)
    (h : splitKV e = some p) : entryKey e = p.1 := by
  induction e generalizing p with
  | nil => simp [splitKV] at h
  | cons c cs ih =>
    by_cases hc : c = '='
    · subst hc
      have h' : some (([] : List Char), cs) = some p := by simpa [splitKV] using h
      cases h'
      simp [entryKey]
    · cases h2 : splitKV cs with
      | none => simp [splitKV, if_neg hc, h2] at h
      | some q =>
        simp only [splitKV, if_neg hc, h2] at h
        cases h
        have hq := ih q h2
        simp only [entryKey, List.takeWhile_cons, decide_not] at hq ⊢
        simp [hc, hq]

theorem splitKV_append (k v : List Char) (hk : '=' ∉ k) :
    splitKV (k ++ '=' :: v) = some (k, v) := by
  induction k with
  | nil => simp [splitKV]
  | cons c cs ih =>
    have hc : c ≠ '=' := fun h => hk (by simp [h])
    have hcs : '=' ∉ cs := fun h => hk (List.mem_cons_of_mem _ h)
    simp [splitKV, hc, ih hcs]

theorem entryKey_append (k v : List Char) (hk : '=' ∉ k) :
    entryKey (k ++ '=' :: v) = k :=
  splitKV_key _ _ (splitKV_append k v hk)

theorem hasKey_iff (ov : List (List Char × List Char)) (k : List Char) :
    hasKey ov k = true ↔ k ∈ ov.map Prod.fst := by
  simp [hasKey, List.any_eq_true, List.mem_map]

theorem overlayEnv_eq_spec (env : List (List Char)) (ov : List (List Char × List Char)) :
    overlayEnv env ov = specOverlayEnv env ov := by
  unfold overlayEnv specOverlayEnv
  congr 1
  apply List.filter_congr
  intro e _
  cases h : splitKV e with
  | none =>
    have hmem : '=' ∉ e := (splitKV_eq_none e).mp h
    simp [hmem]
  | some p =>
    have hmem : '=' ∈ e := by
      by_contra hmem
      rw [(splitKV_eq_none e).mpr hmem] at h
      cases h
    have hkey := splitKV_key e p h
    by_cases hk : p.1 ∈ ov.map Prod.fst
    · have hh : hasKey ov p.1 = true := (hasKey_iff ov p.1).mpr hk
      simp [hh, hmem, hkey, hk]
    · have hh : hasKey ov p.1 = false := by
        cases hcase : hasKey ov p.1
        · rfl
        · exact absurd ((hasKey_iff ov p.1).mp hcase) hk
      simp [hh, hmem, hkey, hk]

/-! ### C4, C5, C6: SetEnv overlay claims -/

/-- C4: for every handle and overlay map, after SetEnv the environment list
consists of exactly the prior entries that contain `'='` and whose key is not
a key of the overlay map, plus one `KEY=VALUE` entry per overlay pair; in
particular base `["A=1","B=2"]` overlaid with `{"A":"9"}` contains `"A=9"` and
`"B=2"` and does not contain `"A=1"`. -/
theorem setEnv_matches_spec (t : Ts) (ov : List (List Char × List Char)) :
    (Ts.SetEnv t ov).Cfg.Env = specOverlayEnv t.Cfg.Env ov ∧
    "A=9".data ∈ (Ts.SetEnv tsFresh ovA9).Cfg.Env ∧
    "B=2".data ∈ (Ts.SetEnv tsFresh ovA9).Cfg.Env ∧
    "A=1".data ∉ (Ts.SetEnv tsFresh ovA9).Cfg.Env := by
  refine ⟨?_, by decide, by decide, by decide⟩
  show overlayEnv t.Cfg.Env ov = specOverlayEnv t.Cfg.Env ov
  exact overlayEnv_eq_spec _ _

/-- Witness for C4 at the spec's key-collision example. -/
theorem setEnv_matches_spec_witness :
    (Ts.SetEnv tsFresh ovA9).Cfg.Env = specOverlayEnv tsFresh.Cfg.Env ovA9 :=
  (setEnv_matches_spec tsFresh ovA9).1

/-- C5 counterexample: a prior environment that already contains two entries
with the same key (`"A=1"` and `"A=2"`) keeps both when the overlay touches
neither, so the keys are not pairwise distinct after SetEnv. -/
theorem setEnv_unique_keys_counterexample :
    ¬ ((Ts.SetEnv tsDup ovC3).Cfg.Env.map entryKey).Nodup := by decide

/-- C5 amended: after SetEnv the entries' keys are pairwise distinct, provided
the prior entries' keys were pairwise distinct and the overlay keys are
pairwise distinct and contain no `'='`. -/
theorem setEnv_unique_keys (t : Ts) (ov : List (List Char × List Char))
    (henv : (t.Cfg.Env.map entryKey).Nodup)
    (hov : (ov.map Prod.fst).Nodup)
    (hkeys : ∀ p ∈ ov, '=' ∉ p.1) :
    ((Ts.SetEnv t ov).Cfg.Env.map entryKey).Nodup := by
  show ((overlayEnv t.Cfg.Env ov).map entryKey).Nodup
  unfold overlayEnv
  rw [List.map_append]
  have hmapped : (ov.map (fun p => p.1 ++ '=' :: p.2)).map entryKey = ov.map Prod.fst := by
    rw [List.map_map]
    exact List.map_congr_left (fun p hp => entryKey_append p.1 p.2 (hkeys p hp))
  rw [hmapped]
  refine List.Nodup.append ?_ hov ?_
  · exact henv.sublist ((List.filter_sublist _).map entryKey)
  · intro x hx1 hx2
    obtain ⟨e, he, rfl⟩ := List.mem_map.mp hx1
    have hef := (List.mem_filter.mp he).2
    cases hsp : splitKV e with
    | none => rw [hsp] at hef; cases hef
    | some p =>
      rw [hsp] at hef
      simp only [Bool.not_eq_true'] at hef
      rw [splitKV_key e p hsp] at hx2
      rw [(hasKey_iff ov p.1).mpr hx2] at hef
      cases hef

/-- Witness for the amended C5. -/
theorem setEnv_unique_keys_witness :
    ((Ts.SetEnv tsFresh ovC3).Cfg.Env.map entryKey).Nodup :=
  setEnv_unique_keys tsFresh ovC3 (by decide) (by decide) (by decide)

/-- C6 counterexample: with the overlay `{"A=B":"c"}` (a key containing `'='`)
applying SetEnv twice to an empty environment yields two copies of the entry
`"A=B=c"`, not the same multiset as applying it once. -/
theorem setEnv_idempotent_counterexample :
    (Ts.SetEnv (Ts.SetEnv tsEmptyEnv ovEqKey) ovEqKey).Cfg.Env ≠
      (Ts.SetEnv tsEmptyEnv ovEqKey).Cfg.Env ∧
    ((Ts.SetEnv (Ts.SetEnv tsEmptyEnv ovEqKey) ovEqKey).Cfg.Env).length = 2 ∧
    ((Ts.SetEnv tsEmptyEnv ovEqKey).Cfg.Env).length = 1 := by decide

theorem overlayEnv_idem (env : List (List Char)) (ov : List (List Char × List Char))
    (hkeys : ∀ p ∈ ov, '=' ∉ p.1) :
    overlayEnv (overlayEnv env ov) ov = overlayEnv env ov := by
  have hnil : List.filter
      (fun kv => match splitKV kv with | none => false | some p => ! hasKey ov p.1)
      (ov.map (fun p => p.1 ++ '=' :: p.2)) = [] := by
    apply List.filter_eq_nil_iff.mpr
    intro e he
    obtain ⟨p, hp, rfl⟩ := List.mem_map.mp he
    have h1 := splitKV_append p.1 p.2 (hkeys p hp)
    have h2 := (hasKey_iff ov p.1).mpr (List.mem_map.mpr ⟨p, hp, rfl⟩)
    simp [h1, h2]
  have hself : List.filter
      (fun kv => match splitKV kv with | none => false | some p => ! hasKey ov p.1)
      (List.filter
        (fun kv => match splitKV kv with | none => false | some p => ! hasKey ov p.1) env) =
      List.filter
        (fun kv => match splitKV kv with | none => false | some p => ! hasKey ov p.1) env :=
    List.filter_eq_self.mpr (fun a ha => (List.mem_filter.mp ha).2)
  unfold overlayEnv
  rw [List.filter_append, hnil, hself]
  simp

/-- C6 amended: SetEnv is idempotent under re-application with the same
overlay map, provided no overlay key contains `'='`. -/
theorem setEnv_idempotent (t : Ts) (ov : List (List Char × List Char))
    (hkeys : ∀ p ∈ ov, '=' ∉ p.1) :
    Ts.SetEnv (Ts.SetEnv t ov) ov = Ts.SetEnv t ov := by
  simp [Ts.SetEnv, overlayEnv_idem t.Cfg.Env ov hkeys]

/-- Witness for the amended C6 at the spec's example `{"A":"1"}`: re-applying
changes nothing, and the result holds exactly one `"A=1"` entry. -/
theorem setEnv_idempotent_witness :
    Ts.SetEnv (Ts.SetEnv tsFresh ovA1) ovA1 = Ts.SetEnv tsFresh ovA1 ∧
    ((Ts.SetEnv tsFresh ovA1).Cfg.Env.filter (fun e => decide (e = "A=1".data))).length = 1 :=
  ⟨setEnv_idempotent tsFresh ovA1 (by decide), by decide⟩

/-! ### C7: Lines -/

theorem splitSep_ne_nil (sep : Char) (s : List Char) : splitSep sep s ≠ [] := by
  cases s with
  | nil => simp [splitSep]
  | cons c cs =>
    simp only [splitSep]
    split
    · simp
    · split <;> simp

theorem joinSep_splitSep (sep : Char) (s : List Char) :
    joinSep sep (splitSep sep s) = s := by
  induction s with
  | nil => rfl
  | cons c cs ih =>
    by_cases hc : c = sep
    · subst hc
      simp only [splitSep, if_pos rfl]
      cases h : splitSep c cs with
      | nil => exact absurd h (splitSep_ne_nil c cs)
      | cons l ls =>
        rw [h] at ih
        simpa [joinSep] using ih
    · simp only [splitSep, if_neg hc]
      cases h : splitSep sep cs with
      | nil => exact absurd h (splitSep_ne_nil sep cs)
      | cons l ls =>
        rw [h] at ih
        cases ls with
        | nil => simpa [joinSep] using ih
        | cons l2 ls2 =>
          simp only [joinSep] at ih ⊢
          rw [List.cons_append, ih]

/-- C7 counterexample: an execution whose captured stdout is `"a \n\nb"`
(reachable, since whole-output trimming keeps interior blank lines) makes
`Lines()` return `["a ", "", "b"]`: one element is empty and another carries a
trailing space, so the elements are neither all non-empty nor all trimmed. -/
theorem lines_trimmed_counterexample :
    [] ∈ Ts.Lines (Ts.Exec tsFresh wBlank) ∧
    "a ".data ∈ Ts.Lines (Ts.Exec tsFresh wBlank) ∧
    ¬ (∀ l ∈ Ts.Lines (Ts.Exec tsFresh wBlank), l ≠ [] ∧ trimSpace l = l) := by decide

/-- C7 amended: `Lines()` on empty `Stdout()` returns the empty sequence
(length 0, not `[""]`); on non-empty `Stdout()` it returns the newline-separated
segments of `Stdout()` (which join back to `Stdout()` and form a non-empty
sequence), with no further per-line trimming or emptiness filtering. -/
theorem lines_split_join (t : Ts) :
    (Ts.Stdout t = [] → Ts.Lines t = []) ∧
    (Ts.Stdout t ≠ [] →
      Ts.Lines t = splitSep '\n' (Ts.Stdout t) ∧
      joinSep '\n' (Ts.Lines t) = Ts.Stdout t ∧
      Ts.Lines t ≠ []) := by
  constructor
  · intro h
    simp [Ts.Lines, h]
  · intro h
    have hl : Ts.Lines t = splitSep '\n' (Ts.Stdout t) := by simp [Ts.Lines, h]
    exact ⟨hl, by rw [hl, joinSep_splitSep], by rw [hl]; exact splitSep_ne_nil _ _⟩

/-- Witness for the amended C7: both the empty-stdout case and a run that
produced output. -/
theorem lines_split_join_witness :
    (Ts.Stdout tsFresh = [] → Ts.Lines tsFresh = []) ∧
    (Ts.Stdout tsABA ≠ [] →
      Ts.Lines tsABA = splitSep '\n' (Ts.Stdout tsABA) ∧
      joinSep '\n' (Ts.Lines tsABA) = Ts.Stdout tsABA ∧
      Ts.Lines tsABA ≠ []) :=
  ⟨(lines_split_join tsFresh).1, (lines_split_join tsABA).2⟩

/-! ### C8, C10: Fields -/

theorem fieldsRow_coe (n : Nat) (line : List Char) :
    fieldsRow (n : Int) line = some (padTrunc n (goFields line)) := by
  simp only [fieldsRow, padTrunc]
  by_cases h1 : (goFields line).length < n
  · have h1i : ((goFields line).length : Int) < (n : Int) := by exact_mod_cast h1
    rw [if_pos h1i, if_neg (show ¬ n ≤ (goFields line).length by omega)]
    have he : ((n : Int) - ((goFields line).length : Int)).toNat =
        n - (goFields line).length := by omega
    rw [he]
  · have h1i : ¬ ((goFields line).length : Int) < (n : Int) := by exact_mod_cast h1
    rw [if_neg h1i, if_pos (show n ≤ (goFields line).length by omega)]
    by_cases h2 : n < (goFields line).length
    · have h2i : (n : Int) < ((goFields line).length : Int) := by exact_mod_cast h2
      rw [if_pos h2i, if_neg (show ¬ (n : Int) < 0 by omega)]
      have ht : ((n : Int)).toNat = n := by omega
      rw [ht]
    · have h2i : ¬ (n : Int) < ((goFields line).length : Int) := by exact_mod_cast h2
      rw [if_neg h2i]
      have hlen : (goFields line).length = n := by omega
      rw [← hlen, List.take_length]

theorem fieldsLoop_coe (n : Nat) (lines : List (List Char)) :
    fieldsLoop (n : Int) lines = some (lines.map (fun line => padTrunc n (goFields line))) := by
  induction lines with
  | nil => rfl
  | cons line rest ih => simp [fieldsLoop, fieldsRow_coe, ih]

theorem padTrunc_length (n : Nat) (f : List (List Char)) : (padTrunc n f).length = n := by
  simp only [padTrunc]
  split
  · next h => simp [List.length_take]; omega
  · next h => simp [List.length_append, List.length_replicate]; omega

/-- C8: for every handle and every nonnegative expected length `n`,
`Fields(n)` returns one row per element of `Lines()`, each row being that
line's white-space-delimited tokens truncated to the first `n` or padded at
the end with empty strings, hence of length exactly `n`. -/
theorem fields_pad_truncate (t : Ts) (n : Nat) :
    ∃ rows, Ts.Fields t (n : Int) = some rows ∧
      rows = (Ts.Lines t).map (fun line => padTrunc n (goFields line)) ∧
      rows.length = (Ts.Lines t).length ∧
      ∀ row ∈ rows, row.length = n := by
  refine ⟨(Ts.Lines t).map (fun line => padTrunc n (goFields line)), ?_, rfl, ?_, ?_⟩
  · show fieldsLoop (n : Int) (Ts.Lines t) = _
    exact fieldsLoop_coe n (Ts.Lines t)
  · simp
  · intro row hrow
    obtain ⟨line, _, rfl⟩ := List.mem_map.mp hrow
    exact padTrunc_length n (goFields line)

/-- Witness for C8 at the spec's example stdout: a 5-token line is truncated
to 3 tokens and a 1-token line is padded with 2 empty strings. -/
theorem fields_pad_truncate_witness :
    (∃ rows, Ts.Fields tsFiveOne ((3 : Nat) : Int) = some rows ∧
      rows = (Ts.Lines tsFiveOne).map (fun line => padTrunc 3 (goFields line)) ∧
      rows.length = (Ts.Lines tsFiveOne).length ∧
      ∀ row ∈ rows, row.length = 3) ∧
    Ts.Fields tsFiveOne 3 =
      some [["v".data, "w".data, "x".data], ["u".data, [], []]] :=
  ⟨fields_pad_truncate tsFiveOne 3, by decide⟩

/-- C10: `Fields` is total for every nonnegative expected length, while for
every negative expected length and every handle with non-empty `Stdout()` the
truncation branch takes an out-of-range slice and evaluation faults; `ToMap`
inherits the same fault. -/
theorem fields_negative_faults (t : Ts) (k : Int) :
    (0 ≤ k → (Ts.Fields t k).isSome = true) ∧
    (k < 0 → Ts.Stdout t ≠ [] → Ts.Fields t k = none ∧ Ts.ToMap t k = none) := by
  constructor
  · intro hk
    obtain ⟨n, rfl⟩ : ∃ n : Nat, k = (n : Int) := ⟨k.toNat, (Int.toNat_of_nonneg hk).symm⟩
    show (fieldsLoop (n : Int) (Ts.Lines t)).isSome = true
    rw [fieldsLoop_coe]
    rfl
  · intro hk hstdout
    have hlines : Ts.Lines t = splitSep '\n' (Ts.Stdout t) := by
      simp [Ts.Lines, hstdout]
    obtain ⟨l, ls, hls⟩ : ∃ l ls, splitSep '\n' (Ts.Stdout t) = l :: ls := by
      cases h : splitSep '\n' (Ts.Stdout t) with
      | nil => exact absurd h (splitSep_ne_nil _ _)
      | cons a as => exact ⟨a, as, rfl⟩
    have h0 : (0 : Int) ≤ ((goFields l).length : Int) := Int.natCast_nonneg _
    have hrow : fieldsRow k l = none := by
      simp only [fieldsRow]
      rw [if_neg (show ¬ ((goFields l).length : Int) < k by omega),
        if_pos (show k < ((goFields l).length : Int) by omega), if_pos hk]
    have hfields : Ts.Fields t k = none := by
      show fieldsLoop k (Ts.Lines t) = none
      rw [hlines, hls]
      simp [fieldsLoop, hrow]
    exact ⟨hfields, by simp [Ts.ToMap, hfields]⟩

/-- Witness for C10: with stdout `"v w x y z\nu"`, `Fields 2` succeeds while
`Fields (-1)` and `ToMap (-1)` fault. -/
theorem fields_negative_faults_witness :
    (Ts.Fields tsFiveOne 2).isSome = true ∧
    Ts.Fields tsFiveOne (-1) = none ∧ Ts.ToMap tsFiveOne (-1) = none :=
  ⟨(fields_negative_faults tsFiveOne 2).1 (by decide),
    ((fields_negative_faults tsFiveOne (-1)).2 (by decide) (by decide)).1,
    ((fields_negative_faults tsFiveOne (-1)).2 (by decide) (by decide)).2⟩

/-! ### C9: ToMap -/

theorem find?_filter_key (m : List (List Char × List (List Char))) (k k2 : List Char)
    (hne : k2 ≠ k) :
    (m.filter (fun p => decide (p.1 ≠ k))).find? (fun p => decide (p.1 = k2)) =
      m.find? (fun p => decide (p.1 = k2)) := by
  induction m with
  | nil => rfl
  | cons a m ih =>
    by_cases h1 : a.1 = k
    · have h2 : ¬ a.1 = k2 := by rw [h1]; exact fun hh => hne hh.symm
      rw [List.filter_cons_of_neg (by simpa using h1),
        List.find?_cons_of_neg _ (by simpa using h2), ih]
    · by_cases h2 : a.1 = k2
      · rw [List.filter_cons_of_pos (by simpa using h1),
          List.find?_cons_of_pos _ (by simpa using h2),
          List.find?_cons_of_pos _ (by simpa using h2)]
      · rw [List.filter_cons_of_pos (by simpa using h1),
          List.find?_cons_of_neg _ (by simpa using h2),
          List.find?_cons_of_neg _ (by simpa using h2), ih]

theorem mapLookup_upsert (m : List (List Char × List (List Char))) (k k2 : List Char)
    (v : List (List Char)) :
    mapLookup (mapUpsert m k v) k2 = if k2 = k then some v else mapLookup m k2 := by
  unfold mapLookup mapUpsert
  by_cases h : k2 = k
  · subst h
    rw [if_pos rfl, List.find?_cons_of_pos _ (by simp)]
    rfl
  · have h2 : ¬ k = k2 := fun hh => h hh.symm
    rw [if_neg h, List.find?_cons_of_neg _ (by simpa using h2),
      find?_filter_key m k k2 h]

theorem toMapLoop_lookup_aux (rows : List (List (List Char)))
    (acc : List (List Char × List (List Char))) (k : List Char) :
    mapLookup (rows.foldl toMapStep acc) k =
      match findLastRow k rows with
      | some r => some r.tail
      | none => mapLookup acc k := by
  induction rows generalizing acc with
  | nil => rfl
  | cons r rest ih =>
    rw [List.foldl_cons, ih]
    cases hfind : findLastRow k rest with
    | some x => simp [findLastRow, hfind]
    | none =>
      simp only [findLastRow, hfind]
      cases r with
      | nil => simp [toMapStep]
      | cons k0 rest0 =>
        by_cases hk : k0 = k
        · subst hk
          simp [toMapStep, mapLookup_upsert]
        · have hk2 : ¬ k = k0 := fun hh => hk hh.symm
          simp [toMapStep, mapLookup_upsert, hk, hk2]

/-- C9: for every handle and expected length `n ≥ 1`, `ToMap(n)` returns a map
sending each line's first token (after the `Fields` padding/truncation) to the
remaining `n - 1` tokens of that line, with later lines overwriting earlier
ones on key collision. -/
theorem toMap_last_wins (t : Ts) (n : Nat) (h : 1 ≤ n) :
    ∃ m, Ts.ToMap t (n : Int) = some m ∧
      ∀ k, mapLookup m k =
        (findLastRow k ((Ts.Lines t).map (fun line => padTrunc n (goFields line)))).map
          List.tail := by
  refine ⟨toMapLoop ((Ts.Lines t).map (fun line => padTrunc n (goFields line))), ?_, ?_⟩
  · show (match Ts.Fields t (n : Int) with
      | none => none
      | some rows => some (toMapLoop rows)) = _
    rw [show Ts.Fields t (n : Int) = fieldsLoop (n : Int) (Ts.Lines t) from rfl,
      fieldsLoop_coe]
  · intro k
    rw [show toMapLoop ((Ts.Lines t).map (fun line => padTrunc n (goFields line))) =
        ((Ts.Lines t).map (fun line => padTrunc n (goFields line))).foldl toMapStep []
      from rfl]
    rw [toMapLoop_lookup_aux]
    cases findLastRow k ((Ts.Lines t).map (fun line => padTrunc n (goFields line))) with
    | none => rfl
    | some r => rfl

/-- Witness for C9 at the spec's example: on lines `["a 1", "b 2", "a 9"]`
with expected length 2 the later `a` line wins and the map is
`{"a": ["9"], "b": ["2"]}`. -/
theorem toMap_last_wins_witness :
    (∃ m, Ts.ToMap tsABA ((2 : Nat) : Int) = some m ∧
      ∀ k, mapLookup m k =
        (findLastRow k ((Ts.Lines tsABA).map (fun line => padTrunc 2 (goFields line)))).map
          List.tail) ∧
    (∃ m, Ts.ToMap tsABA 2 = some m ∧
      mapLookup m "a".data = some ["9".data] ∧ mapLookup m "b".data = some ["2".data]) :=
  ⟨toMap_last_wins tsABA 2 (by decide),
    ⟨[("a".data, ["9".data]), ("b".data, ["2".data])], by decide, by decide, by decide⟩⟩

/-! ### C1, C2, C3: Exec -/

/-- C1: calling `Exec` on a handle whose recorded exit code is non-zero and
different from -1 is a silent no-op for every possible run outcome (state
unchanged, the outcome is never consulted); when the exit code is 0 or -1 the
body runs, and the handle's stdout then reflects the new run's captured
buffer. -/
theorem exec_rerun_guard (t : Ts) (w : RunResult) :
    (t.exitCode ≠ 0 ∧ t.exitCode ≠ -1 → Ts.Exec t w = t) ∧
    (t.exitCode = 0 ∨ t.exitCode = -1 →
      Ts.Exec t w = execBody t w ∧
      (Ts.Exec t w).stdout = trimSpace w.stdoutBuf) := by
  constructor
  · intro h
    simp [Ts.Exec, h]
  · intro h
    have hguard : Ts.Exec t w = execBody t w := by
      rcases h with h | h <;> simp [Ts.Exec, h]
    refine ⟨hguard, ?_⟩
    rw [hguard]
    cases w with
    | mk re pe so se dl => cases re <;> cases pe <;> cases dl <;> rfl

/-- Witness for C1: a handle with recorded exit code 7 is returned unchanged,
a fresh handle (exit code 0) is re-run. -/
theorem exec_rerun_guard_witness :
    ((tsFailed.exitCode ≠ 0 ∧ tsFailed.exitCode ≠ -1) ∧ Ts.Exec tsFailed wOk = tsFailed) ∧
    ((tsFresh.exitCode = 0 ∨ tsFresh.exitCode = -1) ∧
      Ts.Exec tsFresh wOk = execBody tsFresh wOk ∧
      (Ts.Exec tsFresh wOk).stdout = trimSpace wOk.stdoutBuf) :=
  ⟨⟨by decide, (exec_rerun_guard tsFailed wOk).1 (by decide)⟩,
    ⟨Or.inl rfl, (exec_rerun_guard tsFresh wOk).2 (Or.inl rfl)⟩⟩

/-- C2: if the deadline was exceeded during an `Exec` that ran, the resulting
exit code is -1 and stderr is the synthesized message embedding the textual
form of the configured timeout duration, regardless of any exit code or
stderr text the run outcome recorded. -/
theorem exec_timeout_overrides (t : Ts) (w : RunResult)
    (hguard : t.exitCode = 0 ∨ t.exitCode = -1)
    (hdl : w.deadlineExceeded = true) :
    (Ts.Exec t w).exitCode = -1 ∧
    (Ts.Exec t w).stderr = timeoutMsg t.Cfg.Timeout ∧
    ∃ pre post, (Ts.Exec t w).stderr = pre ++ durationString t.Cfg.Timeout ++ post := by
  have hrun : Ts.Exec t w = execBody t w := by
    rcases hguard with h | h <;> simp [Ts.Exec, h]
  rw [hrun]
  cases w with
  | mk re pe so se dl =>
    subst hdl
    cases re <;> cases pe <;>
      exact ⟨rfl, rfl, "Error: Command execution timed out after ".data, ".".data, rfl⟩

/-- Witness for C2: a run that timed out while also recording a process error
and non-empty buffers still reports exit code -1 and the timeout message. -/
theorem exec_timeout_overrides_witness :
    (tsFresh.exitCode = 0 ∨ tsFresh.exitCode = -1) ∧
    wTimedOut.deadlineExceeded = true ∧
    ((Ts.Exec tsFresh wTimedOut).exitCode = -1 ∧
      (Ts.Exec tsFresh wTimedOut).stderr = timeoutMsg tsFresh.Cfg.Timeout ∧
      ∃ pre post,
        (Ts.Exec tsFresh wTimedOut).stderr =
          pre ++ durationString tsFresh.Cfg.Timeout ++ post) :=
  ⟨Or.inl rfl, rfl, exec_timeout_overrides tsFresh wTimedOut (Or.inl rfl) rfl⟩

/-- C3 counterexample: an `Exec` during which `cmd.Run` returned the error
`"exit status 1"` while the captured stderr stream stayed empty (deadline not
exceeded) leaves `Stderr()` empty — the error text assigned at the start of
the body is unconditionally overwritten by the trimmed captured buffer, so
`Stderr()` is not the run error's description. -/
theorem exec_stderr_counterexample :
    (Ts.Exec tsFresh wErrEmpty).stderr = [] ∧
    wErrEmpty.runErr = some "exit status 1".data ∧
    "exit status 1".data ≠ ([] : List Char) ∧
    wErrEmpty.deadlineExceeded = false := by decide

/-- C3 amended: when the guard lets `Exec` run and the deadline was not
exceeded, `Stderr()` is always the trimmed captured stderr buffer; in
particular it is empty (not the run error's description) whenever a run error
occurred but the captured stream was empty. -/
theorem exec_stderr_captured (t : Ts) (w : RunResult)
    (hguard : t.exitCode = 0 ∨ t.exitCode = -1)
    (hdl : w.deadlineExceeded = false) :
    (Ts.Exec t w).stderr = trimSpace w.stderrBuf := by
  have hrun : Ts.Exec t w = execBody t w := by
    rcases hguard with h | h <;> simp [Ts.Exec, h]
  rw [hrun]
  cases w with
  | mk re pe so se dl =>
    subst hdl
    cases re <;> cases pe <;> rfl

/-- Witness for the amended C3 at the failing-run outcome with an empty
captured stderr stream. -/
theorem exec_stderr_captured_witness :
    (tsFresh.exitCode = 0 ∨ tsFresh.exitCode = -1) ∧
    wErrEmpty.deadlineExceeded = false ∧
    (Ts.Exec tsFresh wErrEmpty).stderr = trimSpace wErrEmpty.stderrBuf :=
  ⟨Or.inl rfl, rfl, exec_stderr_captured tsFresh wErrEmpty (Or.inl rfl) rfl⟩
